import Mathlib

/-!
Verification of the StJames front-end (src/app.py).

The file embeds the pure logic of the application in Lean:

* `enforce_mutual_exclusion` (app.py lines 58-62): the channel reconciler.
  Python sets of strings are represented by duplicate-free lists (`List.dedup`),
  set difference by `List.filter`, and Python's `sorted` on strings by
  `List.insertionSort` over `pyLe`, the lexicographic-by-code-point order that
  Python uses to compare strings.
* `enc` (lines 69-71): `urllib.parse.quote(s, safe="")`, modelled at the
  UTF-8 byte level exactly as `quote` operates.
* `req` (lines 28-40): response-body normalization.
* `list_events` (lines 42-56) and the list rendering error handler
  (lines 142-146).
* the create-payload construction (lines 113-131) and the edit-form save
  handler (lines 179, 189-206).
-/

/-- Lexicographic-by-code-point comparison of character lists: the order in
which Python compares strings.  `strLeb l m = true` iff `l ≤ m`. -/
def strLeb : List Char → List Char → Bool
  | [], _ => true
  | _ :: _, [] => false
  | a :: as, b :: bs =>
    if a.toNat < b.toNat then true
    else if b.toNat < a.toNat then false
    else strLeb as bs

/-- Python's `≤` on strings (used by `sorted`): lexicographic by code point. -/
def pyLe (s t : String) : Prop := strLeb s.data t.data = true

instance : DecidableRel pyLe := fun s t =>
  instDecidableEqBool (strLeb s.data t.data) true

theorem strLeb_cons_iff (a b : Char) (as bs : List Char) :
    strLeb (a :: as) (b :: bs) = true ↔
      (a.toNat < b.toNat ∨ (a.toNat = b.toNat ∧ strLeb as bs = true)) := by
  simp only [strLeb]
  split_ifs with h1 h2
  · simp [h1]
  · simp only [Bool.false_eq_true, false_iff]
    rintro (h | ⟨h, _⟩) <;> omega
  · have hab : a.toNat = b.toNat := by omega
    simp [hab]

theorem strLeb_refl : ∀ l : List Char, strLeb l l = true
  | [] => rfl
  | a :: as => by
    rw [strLeb_cons_iff]
    exact Or.inr ⟨rfl, strLeb_refl as⟩

theorem strLeb_total : ∀ l m : List Char, strLeb l m = true ∨ strLeb m l = true
  | [], _ => Or.inl rfl
  | _ :: _, [] => Or.inr rfl
  | a :: as, b :: bs => by
    rcases Nat.lt_trichotomy a.toNat b.toNat with h | h | h
    · exact Or.inl ((strLeb_cons_iff a b as bs).mpr (Or.inl h))
    · rcases strLeb_total as bs with ht | ht
      · exact Or.inl ((strLeb_cons_iff a b as bs).mpr (Or.inr ⟨h, ht⟩))
      · exact Or.inr ((strLeb_cons_iff b a bs as).mpr (Or.inr ⟨h.symm, ht⟩))
    · exact Or.inr ((strLeb_cons_iff b a bs as).mpr (Or.inl h))

theorem strLeb_trans : ∀ l m n : List Char,
    strLeb l m = true → strLeb m n = true → strLeb l n = true
  | [], _, _, _, _ => rfl
  | _ :: _, [], _, h1, _ => by simp [strLeb] at h1
  | _ :: _, _ :: _, [], _, h2 => by simp [strLeb] at h2
  | a :: as, b :: bs, c :: cs, h1, h2 => by
    rw [strLeb_cons_iff] at h1 h2 ⊢
    rcases h1 with h1 | ⟨h1, h1'⟩
    · rcases h2 with h2 | ⟨h2, _⟩
      · exact Or.inl (h1.trans h2)
      · exact Or.inl (by omega)
    · rcases h2 with h2 | ⟨h2, h2'⟩
      · exact Or.inl (by omega)
      · exact Or.inr ⟨by omega, strLeb_trans as bs cs h1' h2'⟩

theorem char_toNat_injective {a b : Char} (h : a.toNat = b.toNat) : a = b := by
  have ha := Char.ofNat_toNat a
  have hb := Char.ofNat_toNat b
  rw [← ha, ← hb, h]

theorem strLeb_antisymm : ∀ l m : List Char,
    strLeb l m = true → strLeb m l = true → l = m
  | [], [], _, _ => rfl
  | [], _ :: _, _, h2 => by simp [strLeb] at h2
  | _ :: _, [], h1, _ => by simp [strLeb] at h1
  | a :: as, b :: bs, h1, h2 => by
    rw [strLeb_cons_iff] at h1 h2
    rcases h1 with h1 | ⟨h1, h1'⟩
    · rcases h2 with h2 | ⟨h2, _⟩ <;> omega
    · rcases h2 with h2 | ⟨h2, h2'⟩
      · omega
      · have hc : a = b := char_toNat_injective h1
        have ht : as = bs := strLeb_antisymm as bs h1' h2'
        rw [hc, ht]

theorem string_data_injective {s t : String} (h : s.data = t.data) : s = t := by
  cases s; cases t; exact congrArg String.mk h

instance : IsRefl String pyLe := ⟨fun s => strLeb_refl s.data⟩

instance : IsTrans String pyLe :=
  ⟨fun a b c => strLeb_trans a.data b.data c.data⟩

instance : IsAntisymm String pyLe :=
  ⟨fun a b h1 h2 => string_data_injective (strLeb_antisymm a.data b.data h1 h2)⟩

instance : IsTotal String pyLe := ⟨fun a b => strLeb_total a.data b.data⟩

/-- app.py lines 58-62.

```
def enforce_mutual_exclusion(selected_post, selected_posting, selected_posted):
    s1, s2, s3 = set(selected_post or []), set(selected_posting or []), set(selected_posted or [])
    s2 -= s1; s3 -= (s1 | s2)
    return sorted(s1), sorted(s2), sorted(s3)
```

`None` arguments (`x or []`) are `Option.getD []`; a Python set is a
duplicate-free list (`dedup`); `-=` is `filter`; `sorted` is insertion sort
under Python's string order `pyLe`. -/
def enforce_mutual_exclusion
    (selected_post selected_posting selected_posted : Option (List String)) :
    List String × List String × List String :=
  let s1 := (selected_post.getD []).dedup
  let s2 := ((selected_posting.getD []).dedup).filter (fun x => decide (x ∉ s1))
  let s3 := ((selected_posted.getD []).dedup).filter (fun x => decide (x ∉ s1 ∧ x ∉ s2))
  (List.insertionSort pyLe s1, List.insertionSort pyLe s2, List.insertionSort pyLe s3)

theorem eme_mem_fst (a b c : Option (List String)) (x : String) :
    x ∈ (enforce_mutual_exclusion a b c).1 ↔ x ∈ a.getD [] := by
  simp [enforce_mutual_exclusion, List.mem_insertionSort]

theorem eme_mem_snd (a b c : Option (List String)) (x : String) :
    x ∈ (enforce_mutual_exclusion a b c).2.1 ↔ (x ∈ b.getD [] ∧ x ∉ a.getD []) := by
  simp [enforce_mutual_exclusion, List.mem_insertionSort, List.mem_filter]

theorem eme_mem_thd (a b c : Option (List String)) (x : String) :
    x ∈ (enforce_mutual_exclusion a b c).2.2 ↔
      (x ∈ c.getD [] ∧ x ∉ a.getD [] ∧ x ∉ b.getD []) := by
  simp only [enforce_mutual_exclusion, List.mem_insertionSort, List.mem_filter,
    List.mem_dedup, decide_eq_true_eq, not_and, not_not]
  constructor
  · rintro ⟨hc, hna, hnb⟩
    exact ⟨hc, hna, fun hb => hna (hnb hb)⟩
  · rintro ⟨hc, hna, hnb⟩
    exact ⟨hc, hna, fun hb => absurd (hnb hb) (by simp [hna])⟩

theorem eme_sorted (a b c : Option (List String)) :
    List.Sorted pyLe (enforce_mutual_exclusion a b c).1 ∧
    List.Sorted pyLe (enforce_mutual_exclusion a b c).2.1 ∧
    List.Sorted pyLe (enforce_mutual_exclusion a b c).2.2 :=
  ⟨List.sorted_insertionSort pyLe _, List.sorted_insertionSort pyLe _,
    List.sorted_insertionSort pyLe _⟩

theorem eme_nodup (a b c : Option (List String)) :
    (enforce_mutual_exclusion a b c).1.Nodup ∧
    (enforce_mutual_exclusion a b c).2.1.Nodup ∧
    (enforce_mutual_exclusion a b c).2.2.Nodup := by
  refine ⟨?_, ?_, ?_⟩ <;>
    · apply (List.perm_insertionSort pyLe _).nodup_iff.mpr
      first
        | exact List.nodup_dedup _
        | exact (List.nodup_dedup _).filter _

theorem eme_fixed (p q r : List String)
    (hp : p.Nodup) (hq : q.Nodup) (hr : r.Nodup)
    (sp : List.Sorted pyLe p) (sq : List.Sorted pyLe q) (sr : List.Sorted pyLe r)
    (dqp : ∀ x ∈ q, x ∉ p) (drp : ∀ x ∈ r, x ∉ p) (drq : ∀ x ∈ r, x ∉ q) :
    enforce_mutual_exclusion (some p) (some q) (some r) = (p, q, r) := by
  simp only [enforce_mutual_exclusion, Option.getD_some]
  simp only [List.dedup_eq_self.mpr hp, List.dedup_eq_self.mpr hq,
    List.dedup_eq_self.mpr hr]
  have ef2 : q.filter (fun x => decide (x ∉ p)) = q :=
    List.filter_eq_self.mpr (fun x hx => decide_eq_true (dqp x hx))
  simp only [ef2]
  have ef3 : r.filter (fun x => decide (x ∉ p ∧ x ∉ q)) = r :=
    List.filter_eq_self.mpr (fun x hx => decide_eq_true ⟨drp x hx, drq x hx⟩)
  simp only [ef3]
  rw [sp.insertionSort_eq, sq.insertionSort_eq, sr.insertionSort_eq]

/-- C1: `enforce_mutual_exclusion` returns three pairwise-disjoint sets; every
element present in any input collection appears in exactly one output set,
namely the highest-priority one (post > posting > posted) among those that
contained it; each output is in canonical sorted order. -/
theorem eme_partitions_by_priority (a b c : Option (List String)) :
    (∀ x, x ∈ (enforce_mutual_exclusion a b c).1 ↔ x ∈ a.getD []) ∧
    (∀ x, x ∈ (enforce_mutual_exclusion a b c).2.1 ↔
      (x ∈ b.getD [] ∧ x ∉ a.getD [])) ∧
    (∀ x, x ∈ (enforce_mutual_exclusion a b c).2.2 ↔
      (x ∈ c.getD [] ∧ x ∉ a.getD [] ∧ x ∉ b.getD [])) ∧
    (∀ x, ¬(x ∈ (enforce_mutual_exclusion a b c).1 ∧
            x ∈ (enforce_mutual_exclusion a b c).2.1)) ∧
    (∀ x, ¬(x ∈ (enforce_mutual_exclusion a b c).1 ∧
            x ∈ (enforce_mutual_exclusion a b c).2.2)) ∧
    (∀ x, ¬(x ∈ (enforce_mutual_exclusion a b c).2.1 ∧
            x ∈ (enforce_mutual_exclusion a b c).2.2)) ∧
    List.Sorted pyLe (enforce_mutual_exclusion a b c).1 ∧
    List.Sorted pyLe (enforce_mutual_exclusion a b c).2.1 ∧
    List.Sorted pyLe (enforce_mutual_exclusion a b c).2.2 := by
  obtain ⟨s1, s2, s3⟩ := eme_sorted a b c
  refine ⟨eme_mem_fst a b c, eme_mem_snd a b c, eme_mem_thd a b c, ?_, ?_, ?_, s1, s2, s3⟩
  · rintro x ⟨h1, h2⟩
    exact ((eme_mem_snd a b c x).mp h2).2 ((eme_mem_fst a b c x).mp h1)
  · rintro x ⟨h1, h2⟩
    exact ((eme_mem_thd a b c x).mp h2).2.1 ((eme_mem_fst a b c x).mp h1)
  · rintro x ⟨h1, h2⟩
    exact ((eme_mem_thd a b c x).mp h2).2.2 ((eme_mem_snd a b c x).mp h1).1

/-- Witness for C1 at a concrete input: "patch" lands in the post output and
is excluded from the posting output. -/
theorem eme_partitions_by_priority_witness :
    "patch" ∈ (enforce_mutual_exclusion (some ["moms", "patch"])
      (some ["patch"]) (some [])).1 ∧
    "patch" ∉ (enforce_mutual_exclusion (some ["moms", "patch"])
      (some ["patch"]) (some [])).2.1 := by
  have h := eme_partitions_by_priority (some ["moms", "patch"]) (some ["patch"]) (some [])
  have hm : "patch" ∈ (enforce_mutual_exclusion (some ["moms", "patch"])
      (some ["patch"]) (some [])).1 := (h.1 "patch").mpr (by decide)
  exact ⟨hm, fun hq => h.2.2.2.1 "patch" ⟨hm, hq⟩⟩

/-- C2: the reconciler is idempotent: feeding its three outputs back in
reproduces them unchanged. -/
theorem eme_idempotent (a b c : Option (List String)) :
    enforce_mutual_exclusion (some (enforce_mutual_exclusion a b c).1)
        (some (enforce_mutual_exclusion a b c).2.1)
        (some (enforce_mutual_exclusion a b c).2.2) =
      enforce_mutual_exclusion a b c := by
  obtain ⟨hn1, hn2, hn3⟩ := eme_nodup a b c
  obtain ⟨hs1, hs2, hs3⟩ := eme_sorted a b c
  have dqp : ∀ x ∈ (enforce_mutual_exclusion a b c).2.1,
      x ∉ (enforce_mutual_exclusion a b c).1 := fun x hx h1 =>
    ((eme_mem_snd a b c x).mp hx).2 ((eme_mem_fst a b c x).mp h1)
  have drp : ∀ x ∈ (enforce_mutual_exclusion a b c).2.2,
      x ∉ (enforce_mutual_exclusion a b c).1 := fun x hx h1 =>
    ((eme_mem_thd a b c x).mp hx).2.1 ((eme_mem_fst a b c x).mp h1)
  have drq : ∀ x ∈ (enforce_mutual_exclusion a b c).2.2,
      x ∉ (enforce_mutual_exclusion a b c).2.1 := fun x hx h2 =>
    ((eme_mem_thd a b c x).mp hx).2.2 ((eme_mem_snd a b c x).mp h2).1
  exact eme_fixed _ _ _ hn1 hn2 hn3 hs1 hs2 hs3 dqp drp drq

/-- C10: the reconciler is total over degenerate inputs: `None` arguments act
as the empty collection, and outputs are always duplicate-free and sorted,
even when inputs contain duplicates. -/
theorem eme_total_degenerate (a b c : Option (List String)) :
    enforce_mutual_exclusion none b c = enforce_mutual_exclusion (some []) b c ∧
    enforce_mutual_exclusion a none c = enforce_mutual_exclusion a (some []) c ∧
    enforce_mutual_exclusion a b none = enforce_mutual_exclusion a b (some []) ∧
    (enforce_mutual_exclusion a b c).1.Nodup ∧
    (enforce_mutual_exclusion a b c).2.1.Nodup ∧
    (enforce_mutual_exclusion a b c).2.2.Nodup ∧
    List.Sorted pyLe (enforce_mutual_exclusion a b c).1 ∧
    List.Sorted pyLe (enforce_mutual_exclusion a b c).2.1 ∧
    List.Sorted pyLe (enforce_mutual_exclusion a b c).2.2 := by
  obtain ⟨hn1, hn2, hn3⟩ := eme_nodup a b c
  obtain ⟨hs1, hs2, hs3⟩ := eme_sorted a b c
  exact ⟨rfl, rfl, rfl, hn1, hn2, hn3, hs1, hs2, hs3⟩

/-- UTF-8 encoding of a Unicode code point (Python `str.encode("utf-8")`,
applied by `urllib.parse.quote` before percent-encoding). -/
def utf8Encode (n : Nat) : List Nat :=
  if n < 128 then [n]
  else if n < 2048 then [192 + n / 64, 128 + n % 64]
  else if n < 65536 then [224 + n / 4096, 128 + n / 64 % 64, 128 + n % 64]
  else [240 + n / 262144, 128 + n / 4096 % 64, 128 + n / 64 % 64, 128 + n % 64]

/-- The UTF-8 bytes of a string. -/
def stringBytes (s : String) : List Nat := s.data.flatMap (fun c => utf8Encode c.toNat)

/-- `urllib.parse.quote`'s always-safe bytes: ASCII letters, digits and
`_ . - ~`.  With `safe=""` these are the only bytes left unencoded. -/
def isSafeByte (b : Nat) : Bool :=
  (65 ≤ b && b ≤ 90) || (97 ≤ b && b ≤ 122) || (48 ≤ b && b ≤ 57) ||
    b == 95 || b == 46 || b == 45 || b == 126

/-- Uppercase hexadecimal digit, as used by `quote`'s `%XX` escapes. -/
def hexDigit (n : Nat) : Char :=
  if n < 10 then Char.ofNat (48 + n) else Char.ofNat (55 + n)

/-- `quote` of one byte with `safe=""`: literal if always-safe, else `%XX`. -/
def quoteByte (b : Nat) : List Char :=
  if isSafeByte b then [Char.ofNat b] else ['%', hexDigit (b / 16), hexDigit (b % 16)]

/-- app.py lines 69-71.

```
def enc(s: str) -> str:
    # encode everything (including '#') so it becomes %23 in the URL
    return quote(s, safe="")  # safe="" => no char left unencoded
```
-/
def enc (s : String) : String := ⟨(stringBytes s).flatMap quoteByte⟩

/-- Value of a hexadecimal digit character (as accepted by percent-decoders). -/
def hexVal (c : Char) : Option Nat :=
  if 48 ≤ c.toNat ∧ c.toNat ≤ 57 then some (c.toNat - 48)
  else if 65 ≤ c.toNat ∧ c.toNat ≤ 70 then some (c.toNat - 55)
  else if 97 ≤ c.toNat ∧ c.toNat ≤ 102 then some (c.toNat - 87)
  else none

/-- Percent-decoding to a byte sequence (the byte layer of
`urllib.parse.unquote`): each `%XX` escape yields the byte `XX`, any other
character contributes its UTF-8 bytes. -/
def pctDecodeBytes : List Char → Option (List Nat)
  | [] => some []
  | c :: rest =>
    if c = '%' then
      match rest with
      | h1 :: h2 :: rest' =>
        match hexVal h1, hexVal h2 with
        | some x, some y => (pctDecodeBytes rest').map (fun bs => (16 * x + y) :: bs)
        | _, _ => none
      | _ => none
    else (pctDecodeBytes rest).map (fun bs => utf8Encode c.toNat ++ bs)

/-- UTF-8 decoding of a byte sequence back to code points (the final step of
`urllib.parse.unquote`), as an incremental decoder: `needed` is the number of
continuation bytes still expected and `acc` the partial code point. -/
def utf8DecodeAux : List Nat → Nat → Nat → Option (List Nat)
  | [], 0, _ => some []
  | [], _ + 1, _ => none
  | b :: rest, 0, _ =>
    if b < 128 then (utf8DecodeAux rest 0 0).map (fun ns => b :: ns)
    else if 192 ≤ b ∧ b < 224 then utf8DecodeAux rest 1 (b - 192)
    else if 224 ≤ b ∧ b < 240 then utf8DecodeAux rest 2 (b - 224)
    else if 240 ≤ b ∧ b < 248 then utf8DecodeAux rest 3 (b - 240)
    else none
  | b :: rest, 1, acc =>
    if 128 ≤ b ∧ b < 192 then
      (utf8DecodeAux rest 0 0).map (fun ns => (acc * 64 + (b - 128)) :: ns)
    else none
  | b :: rest, k + 2, acc =>
    if 128 ≤ b ∧ b < 192 then utf8DecodeAux rest (k + 1) (acc * 64 + (b - 128))
    else none

/-- UTF-8 decoding of a whole byte sequence. -/
def utf8DecodeLoop (bs : List Nat) : Option (List Nat) := utf8DecodeAux bs 0 0

/-- Full percent-decoder (`urllib.parse.unquote`): percent-decode to bytes,
then UTF-8 decode back to a string. -/
def pctDecode (s : String) : Option String :=
  ((pctDecodeBytes s.data).bind utf8DecodeLoop).map
    (fun ns => ⟨ns.map Char.ofNat⟩)

theorem char_toNat_lt (c : Char) : c.toNat < 1114112 := by
  have h := c.valid
  simp [UInt32.isValidChar, Nat.isValidChar] at h
  have he : c.toNat = c.val.toNat := rfl
  omega

theorem toNat_ofNat_valid {n : Nat} (h : n.isValidChar) : (Char.ofNat n).toNat = n := by
  simp [Char.ofNat, h, Char.toNat, Char.ofNatAux, UInt32.toNat, BitVec.toNat_ofNatLt]

theorem isValidChar_of_lt_128 {n : Nat} (h : n < 128) : n.isValidChar :=
  Or.inl (by omega)

theorem utf8Encode_bytes_lt {n : Nat} (h : n < 1114112) : ∀ b ∈ utf8Encode n, b < 256 := by
  intro b hb
  by_cases h1 : n < 128
  · simp [utf8Encode, h1] at hb
    omega
  · by_cases h2 : n < 2048
    · simp [utf8Encode, h1, h2] at hb
      rcases hb with rfl | rfl <;> omega
    · by_cases h3 : n < 65536
      · simp [utf8Encode, h1, h2, h3] at hb
        rcases hb with rfl | rfl | rfl <;> omega
      · simp [utf8Encode, h1, h2, h3] at hb
        rcases hb with rfl | rfl | rfl | rfl <;> omega

theorem utf8Encode_bytes_ge {n : Nat} (h : 128 ≤ n) : ∀ b ∈ utf8Encode n, 128 ≤ b := by
  intro b hb
  by_cases h2 : n < 2048
  · simp [utf8Encode, h2, show ¬(n < 128) by omega] at hb
    rcases hb with rfl | rfl <;> omega
  · by_cases h3 : n < 65536
    · simp [utf8Encode, h2, h3, show ¬(n < 128) by omega] at hb
      rcases hb with rfl | rfl | rfl <;> omega
    · simp [utf8Encode, h2, h3, show ¬(n < 128) by omega] at hb
      rcases hb with rfl | rfl | rfl | rfl <;> omega

theorem utf8DecodeLoop_encode_append {n : Nat} (h : n < 1114112) (rest : List Nat) :
    utf8DecodeAux (utf8Encode n ++ rest) 0 0 =
      (utf8DecodeAux rest 0 0).map (fun ns => n :: ns) := by
  by_cases h1 : n < 128
  · simp only [utf8Encode, if_pos h1, List.cons_append, List.nil_append,
      utf8DecodeAux, if_pos h1]
  · by_cases h2 : n < 2048
    · have e1 : ¬(192 + n / 64 < 128) := by omega
      have e2 : 192 ≤ 192 + n / 64 ∧ 192 + n / 64 < 224 := by omega
      have e3 : 128 ≤ 128 + n % 64 ∧ 128 + n % 64 < 192 := by omega
      simp only [utf8Encode, if_neg h1, if_pos h2, List.cons_append, List.nil_append,
        utf8DecodeAux, if_neg e1, if_pos e2, if_pos e3]
      have harith : (192 + n / 64 - 192) * 64 + (128 + n % 64 - 128) = n := by omega
      simp only [harith]
    · by_cases h3 : n < 65536
      · have e1 : ¬(224 + n / 4096 < 128) := by omega
        have e2 : ¬(192 ≤ 224 + n / 4096 ∧ 224 + n / 4096 < 224) := by omega
        have e3 : 224 ≤ 224 + n / 4096 ∧ 224 + n / 4096 < 240 := by omega
        have e4 : 128 ≤ 128 + n / 64 % 64 ∧ 128 + n / 64 % 64 < 192 := by omega
        have e5 : 128 ≤ 128 + n % 64 ∧ 128 + n % 64 < 192 := by omega
        simp only [utf8Encode, if_neg h1, if_neg h2, if_pos h3, List.cons_append,
          List.nil_append, utf8DecodeAux, if_neg e1, if_neg e2, if_pos e3, if_pos e4,
          if_pos e5]
        have harith : ((224 + n / 4096 - 224) * 64 + (128 + n / 64 % 64 - 128)) * 64 +
            (128 + n % 64 - 128) = n := by omega
        simp only [harith]
      · have e1 : ¬(240 + n / 262144 < 128) := by omega
        have e2 : ¬(192 ≤ 240 + n / 262144 ∧ 240 + n / 262144 < 224) := by omega
        have e3 : ¬(224 ≤ 240 + n / 262144 ∧ 240 + n / 262144 < 240) := by omega
        have e4 : 240 ≤ 240 + n / 262144 ∧ 240 + n / 262144 < 248 := by omega
        have e5 : 128 ≤ 128 + n / 4096 % 64 ∧ 128 + n / 4096 % 64 < 192 := by omega
        have e6 : 128 ≤ 128 + n / 64 % 64 ∧ 128 + n / 64 % 64 < 192 := by omega
        have e7 : 128 ≤ 128 + n % 64 ∧ 128 + n % 64 < 192 := by omega
        simp only [utf8Encode, if_neg h1, if_neg h2, if_neg h3, List.cons_append,
          List.nil_append, utf8DecodeAux, if_neg e1, if_neg e2, if_neg e3, if_pos e4,
          if_pos e5, if_pos e6, if_pos e7]
        have harith : (((240 + n / 262144 - 240) * 64 + (128 + n / 4096 % 64 - 128)) * 64 +
            (128 + n / 64 % 64 - 128)) * 64 + (128 + n % 64 - 128) = n := by omega
        simp only [harith]

theorem utf8DecodeLoop_encodes : ∀ cs : List Char,
    utf8DecodeAux (cs.flatMap (fun c => utf8Encode c.toNat)) 0 0 = some (cs.map Char.toNat)
  | [] => rfl
  | c :: cs => by
    rw [List.flatMap_cons, utf8DecodeLoop_encode_append (char_toNat_lt c),
      utf8DecodeLoop_encodes cs]
    rfl

theorem pctDecodeBytes_cons_plain {c : Char} (h : ¬ c = '%') (rest : List Char) :
    pctDecodeBytes (c :: rest) =
      (pctDecodeBytes rest).map (fun bs => utf8Encode c.toNat ++ bs) := by
  rw [pctDecodeBytes.eq_def]
  simp only [if_neg h]

theorem pctDecodeBytes_escape (h1 h2 : Char) {x y : Nat}
    (hx : hexVal h1 = some x) (hy : hexVal h2 = some y) (rest : List Char) :
    pctDecodeBytes ('%' :: h1 :: h2 :: rest) =
      (pctDecodeBytes rest).map (fun bs => (16 * x + y) :: bs) := by
  rw [pctDecodeBytes.eq_def]
  simp only [if_pos rfl, hx, hy, if_true, ite_true]

theorem hexVal_hexDigit {n : Nat} (h : n < 16) : hexVal (hexDigit n) = some n := by
  by_cases h10 : n < 10
  · have htn : (Char.ofNat (48 + n)).toNat = 48 + n :=
      toNat_ofNat_valid (isValidChar_of_lt_128 (by omega))
    rw [hexDigit, if_pos h10]
    simp only [hexVal, htn]
    rw [if_pos (by omega : 48 ≤ 48 + n ∧ 48 + n ≤ 57)]
    congr 1
    omega
  · have htn : (Char.ofNat (55 + n)).toNat = 55 + n :=
      toNat_ofNat_valid (isValidChar_of_lt_128 (by omega))
    rw [hexDigit, if_neg h10]
    simp only [hexVal, htn]
    rw [if_neg (by omega : ¬(48 ≤ 55 + n ∧ 55 + n ≤ 57)),
      if_pos (by omega : 65 ≤ 55 + n ∧ 55 + n ≤ 70)]
    congr 1
    omega

theorem safe_byte_facts {b : Nat} (h : isSafeByte b = true) : b < 128 ∧ b ≠ 37 := by
  simp only [isSafeByte, Bool.or_eq_true, Bool.and_eq_true, decide_eq_true_eq,
    beq_iff_eq] at h
  omega

theorem pctDecodeBytes_quoteByte {b : Nat} (h : b < 256) (rest : List Char) :
    pctDecodeBytes (quoteByte b ++ rest) = (pctDecodeBytes rest).map (fun bs => b :: bs) := by
  by_cases hs : isSafeByte b
  · obtain ⟨hlt, hne⟩ := safe_byte_facts hs
    have htn : (Char.ofNat b).toNat = b := toNat_ofNat_valid (isValidChar_of_lt_128 hlt)
    have hnp : ¬(Char.ofNat b = '%') := by
      intro he
      have h37 : (Char.ofNat b).toNat = 37 := by rw [he]; rfl
      omega
    rw [quoteByte, if_pos hs, List.singleton_append, pctDecodeBytes_cons_plain hnp]
    have hue : utf8Encode b = [b] := by simp [utf8Encode, hlt]
    simp only [htn, hue, List.singleton_append]
  · have h16a : b / 16 < 16 := by omega
    have h16b : b % 16 < 16 := by omega
    rw [quoteByte, if_neg hs, List.cons_append, List.cons_append, List.cons_append,
      List.nil_append,
      pctDecodeBytes_escape _ _ (hexVal_hexDigit h16a) (hexVal_hexDigit h16b)]
    have harith : 16 * (b / 16) + b % 16 = b := by omega
    simp only [harith]

theorem pctDecodeBytes_flatMap : ∀ bs : List Nat, (∀ b ∈ bs, b < 256) →
    pctDecodeBytes (bs.flatMap quoteByte) = some bs
  | [], _ => rfl
  | b :: bs, h => by
    rw [List.flatMap_cons, pctDecodeBytes_quoteByte (h b (List.mem_cons_self b bs)),
      pctDecodeBytes_flatMap bs (fun x hx => h x (List.mem_cons_of_mem b hx))]
    rfl

theorem stringBytes_lt (s : String) : ∀ b ∈ stringBytes s, b < 256 := by
  intro b hb
  simp only [stringBytes, List.mem_flatMap] at hb
  obtain ⟨c, _, hbc⟩ := hb
  exact utf8Encode_bytes_lt (char_toNat_lt c) b hbc

theorem map_ofNat_toNat : ∀ cs : List Char, (cs.map Char.toNat).map Char.ofNat = cs
  | [] => rfl
  | c :: cs => by
    simp only [List.map_cons, Char.ofNat_toNat, map_ofNat_toNat cs]

/-- C9: the identifier encoding is lossless: percent-decoding `enc s` recovers
`s` exactly, and `enc` is injective, so distinct `date_id` values never
collide in the request path. -/
theorem enc_lossless :
    (∀ s : String, pctDecode (enc s) = some s) ∧ Function.Injective enc := by
  have hrt : ∀ s : String, pctDecode (enc s) = some s := by
    intro s
    show ((pctDecodeBytes ((stringBytes s).flatMap quoteByte)).bind utf8DecodeLoop).map
        (fun ns => (⟨ns.map Char.ofNat⟩ : String)) = some s
    rw [pctDecodeBytes_flatMap (stringBytes s) (stringBytes_lt s)]
    show (utf8DecodeLoop (stringBytes s)).map
        (fun ns => (⟨ns.map Char.ofNat⟩ : String)) = some s
    rw [show utf8DecodeLoop (stringBytes s) = some (s.data.map Char.toNat) from
      utf8DecodeLoop_encodes s.data]
    show some (⟨(s.data.map Char.toNat).map Char.ofNat⟩ : String) = some s
    rw [map_ofNat_toNat]
  exact ⟨hrt, fun s t he => Option.some.inj (by rw [← hrt s, ← hrt t, he])⟩

/-- Witness for C9: the round trip evaluated on the spec's sample identifier,
and injectivity applied at a concrete pair. -/
theorem enc_lossless_witness :
    pctDecode (enc "2025-10-06#abc123") = some "2025-10-06#abc123" ∧
    "moms" = "moms" :=
  ⟨enc_lossless.1 "2025-10-06#abc123", enc_lossless.2 (rfl : enc "moms" = enc "moms")⟩

theorem flatMap_congr_mem {α β : Type} {l : List α} {f g : α → List β}
    (h : ∀ a ∈ l, f a = g a) : l.flatMap f = l.flatMap g := by
  induction l with
  | nil => rfl
  | cons a l ih =>
    rw [List.flatMap_cons, List.flatMap_cons, h a (List.mem_cons_self a l),
      ih (fun x hx => h x (List.mem_cons_of_mem a hx))]

theorem hexDigit_toNat {n : Nat} (h : n < 16) :
    (hexDigit n).toNat = if n < 10 then 48 + n else 55 + n := by
  by_cases h10 : n < 10
  · rw [hexDigit, if_pos h10, if_pos h10]
    exact toNat_ofNat_valid (isValidChar_of_lt_128 (by omega))
  · rw [hexDigit, if_neg h10, if_neg h10]
    exact toNat_ofNat_valid (isValidChar_of_lt_128 (by omega))

theorem hash_not_mem_quoteByte {b : Nat} (h : b < 256) : '#' ∉ quoteByte b := by
  intro hm
  by_cases hs : isSafeByte b
  · obtain ⟨hlt, _⟩ := safe_byte_facts hs
    rw [quoteByte, if_pos hs] at hm
    simp only [List.mem_singleton] at hm
    have h35 : ('#' : Char).toNat = (Char.ofNat b).toNat := congrArg Char.toNat hm
    rw [toNat_ofNat_valid (isValidChar_of_lt_128 hlt)] at h35
    have hval : ('#' : Char).toNat = 35 := rfl
    have hb : b = 35 := by omega
    rw [hb] at hs
    exact absurd hs (by decide)
  · rw [quoteByte, if_neg hs] at hm
    have h16a : b / 16 < 16 := by omega
    have h16b : b % 16 < 16 := by omega
    have ha := hexDigit_toNat h16a
    have hb' := hexDigit_toNat h16b
    have hval : ('#' : Char).toNat = 35 := rfl
    simp only [List.mem_cons, List.not_mem_nil, or_false] at hm
    rcases hm with hm | hm | hm
    · exact absurd hm (by decide)
    · have he : ('#' : Char).toNat = (hexDigit (b / 16)).toNat := congrArg Char.toNat hm
      split_ifs at ha <;> omega
    · have he : ('#' : Char).toNat = (hexDigit (b % 16)).toNat := congrArg Char.toNat hm
      split_ifs at hb' <;> omega

theorem hash_not_mem_enc (s : String) : '#' ∉ (enc s).data := by
  intro hm
  have hm' : '#' ∈ (stringBytes s).flatMap quoteByte := hm
  simp only [List.mem_flatMap] at hm'
  obtain ⟨b, hb, hbc⟩ := hm'
  exact hash_not_mem_quoteByte (stringBytes_lt s b hb) hbc

theorem unsafe_byte_of_mem {c : Char} (hc : isSafeByte c.toNat = false) {b : Nat}
    (hb : b ∈ utf8Encode c.toNat) : isSafeByte b = false := by
  by_cases hlt : c.toNat < 128
  · have he : utf8Encode c.toNat = [c.toNat] := by simp [utf8Encode, hlt]
    rw [he, List.mem_singleton] at hb
    rw [hb]
    exact hc
  · have hge := utf8Encode_bytes_ge (by omega) b hb
    cases hsb : isSafeByte b
    · rfl
    · exact absurd (safe_byte_facts hsb).1 (by omega)

/-- C5 counterexample: the claim that `enc` percent-encodes its input "with no
characters exempted" fails on the input "a": the always-safe letter is passed
through unencoded, with no percent escape at all. -/
theorem enc_exempts_letter : enc "a" = "a" ∧ '%' ∉ (enc "a").data := by decide

/-- C5 (amended): `enc` calls quote with an empty safe set, so every character
outside quote's fixed always-safe set (ASCII letters, digits, `_ . - ~`) is
fully percent-escaped; in particular `#` never survives literally, and the
sample identifier "2025-10-06#abc123" encodes to "2025-10-06%23abc123",
with `%23` in place of `#`. -/
theorem enc_escapes_every_unsafe_char :
    enc "2025-10-06#abc123" = "2025-10-06%23abc123" ∧
    (∀ s : String, '#' ∉ (enc s).data) ∧
    (∀ c : Char, isSafeByte c.toNat = false →
      (enc (⟨[c]⟩ : String)).data =
        (utf8Encode c.toNat).flatMap
          (fun b => ['%', hexDigit (b / 16), hexDigit (b % 16)])) := by
  refine ⟨by decide, hash_not_mem_enc, ?_⟩
  intro c hc
  have hd : (enc (⟨[c]⟩ : String)).data = (utf8Encode c.toNat).flatMap quoteByte := by
    simp [enc, stringBytes]
  rw [hd]
  exact flatMap_congr_mem (fun b hb => by
    rw [quoteByte, if_neg (by simp [unsafe_byte_of_mem hc hb])])

/-- Witness for C5's amended theorem: the unsafe character `#` is fully
escaped to `%23`. -/
theorem enc_escapes_every_unsafe_char_witness :
    isSafeByte ('#' : Char).toNat = false ∧
    (enc (⟨['#']⟩ : String)).data = ['%', '2', '3'] := by
  have h := enc_escapes_every_unsafe_char.2.2 '#' (by decide)
  exact ⟨by decide, by rw [h]; decide⟩

/-- An event record as fetched from the API, holding the fields the UI reads
(`body.get(k)`); an absent or JSON-null field is `none`. -/
structure RawEvent where
  date_id : Option String
  title : Option String
  time : Option String
  description : Option String
  post : Option (List String)
  posting : Option (List String)
  posted : Option (List String)
deriving DecidableEq

/-- app.py line 48: `it.get("date_id", "").split("#")[0]`, the prefix of
`date_id` before the first `#`. -/
def derivedDate (e : RawEvent) : String :=
  ⟨(e.date_id.getD "").data.takeWhile (fun c => c != '#')⟩

/-- app.py lines 50-54: the `channels` display string, `"k:v"` pairs in
category order post, posting, posted, joined by `", "`. -/
def derivedChannels (e : RawEvent) : String :=
  String.intercalate ", "
    ((e.post.getD []).map (fun v => "post:" ++ v) ++
     (e.posting.getD []).map (fun v => "posting:" ++ v) ++
     (e.posted.getD []).map (fun v => "posted:" ++ v))

/-- A listed event row: the fetched record plus the two derived display
fields written into it (app.py lines 47-54). -/
structure AugEvent where
  event : RawEvent
  date : String
  channels : String
deriving DecidableEq

def augment (e : RawEvent) : AugEvent := ⟨e, derivedDate e, derivedChannels e⟩

/-- The parsed body of a list response: `body.get("items", [])`. -/
structure ListBody where
  items : Option (List RawEvent)
deriving DecidableEq

/-- app.py lines 42-56: on status 200 return the augmented items; on any
other status raise `RuntimeError` carrying status and body, modelled as
`Except.error (sc, body)`. -/
def list_events (sc : Nat) (body : ListBody) :
    Except (Nat × ListBody) (List AugEvent) :=
  if sc = 200 then Except.ok ((body.items.getD []).map augment)
  else Except.error (sc, body)

/-- app.py lines 142-146: the list rendering wrapped in the error handler:
on an exception the UI keeps an error message and renders zero rows. -/
def render_list (sc : Nat) (body : ListBody) :
    List AugEvent × Option (Nat × ListBody) :=
  match list_events sc body with
  | Except.ok items => (items, none)
  | Except.error e => ([], some e)

/-- A normalized response body (app.py lines 33-39): `null` for an empty
body, parsed JSON on success, or the raw-text wrapper when parsing fails. -/
inductive RespBody (J : Type) where
  | null : RespBody J
  | json : J → RespBody J
  | raw : String → RespBody J
deriving DecidableEq

/-- app.py lines 28-40: normalize a response into (status, body, headers);
`tryJson` stands for `resp.json()`, returning `none` when parsing raises. -/
def req {J H : Type} (tryJson : String → Option J) (status : Nat)
    (content : String) (headers : H) : Nat × RespBody J × H :=
  (status,
    (if content = "" then RespBody.null
     else
       match tryJson content with
       | some j => RespBody.json j
       | none => RespBody.raw content),
    headers)

/-- A JSON value in the create payload: a string or a list of strings. -/
inductive PVal where
  | str : String → PVal
  | list : List String → PVal
deriving DecidableEq

/-- app.py lines 115-131: the create-payload construction, with fields added
in source order and optional fields only when non-empty; `none` when title is
empty (the handler reports an error and submits nothing). -/
def create_payload (access_new title : String) (date_only : Bool)
    (date date_id time_ desc : String) (post posting posted : List String) :
    Option (List (String × PVal)) :=
  if title = "" then none
  else some
    ([("access", PVal.str access_new), ("title", PVal.str title)] ++
     (if date_only then [("date", PVal.str date)] else [("date_id", PVal.str date_id)]) ++
     (if time_ ≠ "" then [("time", PVal.str time_)] else []) ++
     (if desc ≠ "" then [("description", PVal.str desc)] else []) ++
     (if post ≠ [] then [("post", PVal.list post)] else []) ++
     (if posting ≠ [] then [("posting", PVal.list posting)] else []) ++
     (if posted ≠ [] then [("posted", PVal.list posted)] else []))

/-- app.py line 113 then lines 115-131: selections are reconciled before the
payload is built. -/
def create_flow (access_new title : String) (date_only : Bool)
    (date date_id time_ desc : String) (post posting posted : List String) :
    Option (List (String × PVal)) :=
  let r := enforce_mutual_exclusion (some post) (some posting) (some posted)
  create_payload access_new title date_only date date_id time_ desc r.1 r.2.1 r.2.2

/-- Python `x or ""` on an optional string: `None` and `""` are falsy. -/
def pyOrEmpty : Option String → String
  | none => ""
  | some v => if v = "" then "" else v

/-- Python `v or ""` on a string. -/
def pyOrStr (v : String) : String := if v = "" then "" else v

/-- The patch dict built by the save handler: a field is `some` exactly when
the handler inserted it. -/
structure PatchRec where
  title : Option String
  time : Option String
  description : Option String
  post : Option (List String)
  posting : Option (List String)
  posted : Option (List String)
deriving DecidableEq

def PatchRec.isEmpty (p : PatchRec) : Bool :=
  p.title.isNone && p.time.isNone && p.description.isNone &&
    p.post.isNone && p.posting.isNone && p.posted.isNone

/-- app.py lines 179 and 189-206: the edit-form save handler.  Selections are
reconciled (line 179), each field is compared per lines 191-196 against the
fetched record, and the handler returns `none` ("No changes.", no API call)
when the patch dict is empty, `some patch` (a PUT is issued) otherwise. -/
def edit_save (body : RawEvent) (title_e time_e desc_e : String)
    (post_raw posting_raw posted_raw : List String) : Option PatchRec :=
  let r := enforce_mutual_exclusion (some post_raw) (some posting_raw) (some posted_raw)
  let patch : PatchRec :=
    { title := if body.title ≠ some title_e then some title_e else none
      time := if time_e ≠ pyOrEmpty body.time then some time_e else none
      description := if pyOrStr desc_e ≠ pyOrEmpty body.description then some desc_e else none
      post := if r.1 ≠ body.post.getD [] then some r.1 else none
      posting := if r.2.1 ≠ body.posting.getD [] then some r.2.1 else none
      posted := if r.2.2 ≠ body.posted.getD [] then some r.2.2 else none }
  if patch.isEmpty then none else some patch

theorem hash_not_mem_takeWhile (l : List Char) :
    '#' ∉ l.takeWhile (fun c => c != '#') := by
  intro hm
  have h := List.mem_takeWhile_imp hm
  simp at h

theorem dropWhile_ne_hash : ∀ l : List Char,
    l.dropWhile (fun c => c != '#') = [] ∨
    (l.dropWhile (fun c => c != '#')).head? = some '#'
  | [] => Or.inl rfl
  | a :: l => by
    by_cases ha : a = '#'
    · right
      rw [List.dropWhile_cons]
      simp [ha]
    · rw [List.dropWhile_cons, if_pos (by simp [ha])]
      exact dropWhile_ne_hash l

/-- C6: on a 200 list response every returned row carries a derived `date`
equal to the prefix of its `date_id` before the first `#`, and a derived
`channels` string joining the `"category:channel"` pairs in order post,
posting, posted with `", "`; including the spec's two concrete examples. -/
theorem list_events_derived_fields :
    (∀ (sc : Nat) (body : ListBody) (rows : List AugEvent) (e : AugEvent),
      list_events sc body = Except.ok rows → e ∈ rows →
        ((∃ rest : List Char,
            (e.event.date_id.getD "").data = e.date.data ++ rest ∧
            '#' ∉ e.date.data ∧
            (rest = [] ∨ rest.head? = some '#')) ∧
         e.channels = String.intercalate ", "
            ((e.event.post.getD []).map (fun v => "post:" ++ v) ++
             (e.event.posting.getD []).map (fun v => "posting:" ++ v) ++
             (e.event.posted.getD []).map (fun v => "posted:" ++ v)))) ∧
    derivedDate ⟨some "2025-10-06#abc123", none, none, none, none, none, none⟩ =
      "2025-10-06" ∧
    derivedChannels ⟨none, none, none, none, some ["moms"], some [], some ["patch"]⟩ =
      "post:moms, posted:patch" := by
  refine ⟨?_, by decide, by decide⟩
  intro sc body rows e hok hmem
  unfold list_events at hok
  by_cases hsc : sc = 200
  · rw [if_pos hsc] at hok
    have hrows : rows = (body.items.getD []).map augment :=
      (Except.ok.inj hok).symm
    subst hrows
    obtain ⟨e0, _, rfl⟩ := List.mem_map.mp hmem
    refine ⟨⟨(e0.date_id.getD "").data.dropWhile (fun c => c != '#'), ?_, ?_, ?_⟩, rfl⟩
    · exact (List.takeWhile_append_dropWhile _ _).symm
    · exact hash_not_mem_takeWhile _
    · exact dropWhile_ne_hash _
  · rw [if_neg hsc] at hok
    cases hok

def evSample : RawEvent :=
  ⟨some "2025-10-06#abc123", none, none, none, some ["moms"], some [], some ["patch"]⟩

def bodySample : ListBody := ⟨some [evSample]⟩

/-- Witness for C6: the derived-field characterization instantiated on a
concrete 200 response with one item. -/
theorem list_events_derived_fields_witness :
    (∃ rest : List Char,
        ((augment evSample).event.date_id.getD "").data =
          (augment evSample).date.data ++ rest ∧
        '#' ∉ (augment evSample).date.data ∧
        (rest = [] ∨ rest.head? = some '#')) ∧
    (augment evSample).channels = String.intercalate ", "
        (((augment evSample).event.post.getD []).map (fun v => "post:" ++ v) ++
         ((augment evSample).event.posting.getD []).map (fun v => "posting:" ++ v) ++
         ((augment evSample).event.posted.getD []).map (fun v => "posted:" ++ v)) :=
  list_events_derived_fields.1 200 bodySample
    ((bodySample.items.getD []).map augment) (augment evSample) rfl
    (List.mem_map_of_mem augment (by simp [bodySample]))

/-- C7: a non-200 list response raises the list error carrying the status and
body, and the UI then renders zero rows together with that error instead of
crashing. -/
theorem list_events_non_200_errors (sc : Nat) (body : ListBody) (h : sc ≠ 200) :
    list_events sc body = Except.error (sc, body) ∧
    render_list sc body = ([], some (sc, body)) := by
  have he : list_events sc body = Except.error (sc, body) := by
    unfold list_events
    rw [if_neg h]
  refine ⟨he, ?_⟩
  unfold render_list
  rw [he]

/-- Witness for C7 at status 500. -/
theorem list_events_non_200_errors_witness :
    list_events 500 ⟨none⟩ = Except.error (500, (⟨none⟩ : ListBody)) ∧
    render_list 500 ⟨none⟩ = ([], some (500, (⟨none⟩ : ListBody))) :=
  list_events_non_200_errors 500 ⟨none⟩ (by decide)

/-- C8: `req` always yields a (status, body, headers) triple: an empty body
gives `null`, a body that parses gives the parsed JSON, and a body that fails
to parse is wrapped as raw text rather than raising. -/
theorem req_normalizes_body {J H : Type} (tryJson : String → Option J)
    (status : Nat) (content : String) (headers : H) :
    (req tryJson status content headers).1 = status ∧
    (req tryJson status content headers).2.2 = headers ∧
    (content = "" → (req tryJson status content headers).2.1 = RespBody.null) ∧
    (∀ j, content ≠ "" → tryJson content = some j →
      (req tryJson status content headers).2.1 = RespBody.json j) ∧
    (content ≠ "" → tryJson content = none →
      (req tryJson status content headers).2.1 = RespBody.raw content) := by
  refine ⟨rfl, rfl, ?_, ?_, ?_⟩
  · intro h
    simp [req, h]
  · intro j hne hj
    simp [req, hne, hj]
  · intro hne hj
    simp [req, hne, hj]

/-- Witness for C8: a malformed body degrades to the raw wrapper. -/
theorem req_normalizes_body_witness :
    (req (fun s => if s = "ok" then some 0 else none) 200 "oops" ()).2.1 =
      RespBody.raw "oops" :=
  (req_normalizes_body (fun s => if s = "ok" then some 0 else none)
      200 "oops" ()).2.2.2.2 (by decide) (by decide)

/-- C4: the create scenario: title "Rehearsal", access "private", date-only
"2025-10-06", post = [moms, patch], posting = [patch]: reconciliation drops
"patch" from posting, and the submitted payload carries post = [moms, patch]
and no posting key. -/
theorem create_scenario :
    enforce_mutual_exclusion (some ["moms", "patch"]) (some ["patch"]) (some []) =
      (["moms", "patch"], [], []) ∧
    create_flow "private" "Rehearsal" true "2025-10-06" "" "" ""
        ["moms", "patch"] ["patch"] [] =
      some [("access", PVal.str "private"), ("title", PVal.str "Rehearsal"),
        ("date", PVal.str "2025-10-06"), ("post", PVal.list ["moms", "patch"])] ∧
    "posting" ∉ ((create_flow "private" "Rehearsal" true "2025-10-06" "" "" ""
        ["moms", "patch"] ["patch"] []).getD []).map Prod.fst := by
  refine ⟨by decide, by decide, by decide⟩

/-- C3: the save handler's diff builder produces a patch containing exactly
the fields whose edited value differs from the fetched one: title by plain
comparison against the possibly-absent fetched title, time and description
with an absent or null fetched value equated to the empty string, and the
three channel lists by their reconciled values; it signals no-op (`none`, no
PUT issued) exactly when nothing differs. -/
theorem edit_save_minimal_diff (body : RawEvent) (title_e time_e desc_e : String)
    (post_raw posting_raw posted_raw : List String) :
    (edit_save body title_e time_e desc_e post_raw posting_raw posted_raw = none ↔
      (body.title = some title_e ∧
       time_e = pyOrEmpty body.time ∧
       pyOrStr desc_e = pyOrEmpty body.description ∧
       (enforce_mutual_exclusion (some post_raw) (some posting_raw)
         (some posted_raw)).1 = body.post.getD [] ∧
       (enforce_mutual_exclusion (some post_raw) (some posting_raw)
         (some posted_raw)).2.1 = body.posting.getD [] ∧
       (enforce_mutual_exclusion (some post_raw) (some posting_raw)
         (some posted_raw)).2.2 = body.posted.getD [])) ∧
    (∀ p, edit_save body title_e time_e desc_e post_raw posting_raw posted_raw = some p →
      ((p.title = none ↔ body.title = some title_e) ∧
       (p.title ≠ none → p.title = some title_e) ∧
       (p.time = none ↔ time_e = pyOrEmpty body.time) ∧
       (p.time ≠ none → p.time = some time_e) ∧
       (p.description = none ↔ pyOrStr desc_e = pyOrEmpty body.description) ∧
       (p.description ≠ none → p.description = some desc_e) ∧
       (p.post = none ↔ (enforce_mutual_exclusion (some post_raw) (some posting_raw)
         (some posted_raw)).1 = body.post.getD []) ∧
       (p.post ≠ none → p.post = some (enforce_mutual_exclusion (some post_raw)
         (some posting_raw) (some posted_raw)).1) ∧
       (p.posting = none ↔ (enforce_mutual_exclusion (some post_raw) (some posting_raw)
         (some posted_raw)).2.1 = body.posting.getD []) ∧
       (p.posting ≠ none → p.posting = some (enforce_mutual_exclusion (some post_raw)
         (some posting_raw) (some posted_raw)).2.1) ∧
       (p.posted = none ↔ (enforce_mutual_exclusion (some post_raw) (some posting_raw)
         (some posted_raw)).2.2 = body.posted.getD []) ∧
       (p.posted ≠ none → p.posted = some (enforce_mutual_exclusion (some post_raw)
         (some posting_raw) (some posted_raw)).2.2))) := by
  by_cases h1 : body.title = some title_e <;>
    by_cases h2 : time_e = pyOrEmpty body.time <;>
    by_cases h3 : pyOrStr desc_e = pyOrEmpty body.description <;>
    by_cases h4 : (enforce_mutual_exclusion (some post_raw) (some posting_raw)
      (some posted_raw)).1 = body.post.getD [] <;>
    by_cases h5 : (enforce_mutual_exclusion (some post_raw) (some posting_raw)
      (some posted_raw)).2.1 = body.posting.getD [] <;>
    by_cases h6 : (enforce_mutual_exclusion (some post_raw) (some posting_raw)
      (some posted_raw)).2.2 = body.posted.getD [] <;>
    simp [edit_save, PatchRec.isEmpty, h1, h2, h3, h4, h5, h6]

/-- Witness for C3: an edit changing only the title yields a patch carrying
exactly the new title. -/
theorem edit_save_minimal_diff_witness :
    (⟨some "New", none, none, none, none, none⟩ : PatchRec).title = some "New" :=
  ((edit_save_minimal_diff ⟨none, some "Old", none, none, none, none, none⟩
      "New" "" "" [] [] []).2
    ⟨some "New", none, none, none, none, none⟩ (by decide)).2.1 (by decide)
